import Mathlib

/-!
Verification of the QR-code rendering pipeline in `main.py`.

The Python source is shallowly embedded below. Pure helpers (`parse_color`,
the logo sizing arithmetic) become Lean functions on `Nat`/`Int`/`Rat`;
`PIL` images become records with an explicit pixel function; the external
effects (the symbol encoder, file loading, file writing, the module/gradient
rendering of the `qrcode` library) are oracle parameters.  Behaviour of the
third-party library calls that `main.py` makes (`PIL.Image.thumbnail`,
`PIL.ImageDraw.rectangle`, `PIL.Image.paste`, the drawer constructors of
`qrcode`) is modelled from those libraries' published sources and
documentation; each such definition carries a comment saying so.  Floating
point arithmetic inside `PIL.Image.thumbnail` is modelled with exact
rationals.
-/

namespace MyPyQRCode

/-! ### Python hex-string parsing (`parse_color`, main.py lines 22-34) -/

/-- Characters stripped by Python's `int(str, 16)` before parsing
(`str.strip` whitespace). -/
def isPySpace (c : Char) : Bool :=
  c = ' ' ∨ c = '\t' ∨ c = '\n' ∨ c = '\r' ∨ c = '\x0b' ∨ c = '\x0c'

def isHexDigitCh (c : Char) : Bool :=
  ('0' ≤ c ∧ c ≤ '9') ∨ ('a' ≤ c ∧ c ≤ 'f') ∨ ('A' ≤ c ∧ c ≤ 'F')

def hexVal (c : Char) : ℕ :=
  if '0' ≤ c ∧ c ≤ '9' then c.toNat - '0'.toNat
  else if 'a' ≤ c ∧ c ≤ 'f' then c.toNat - 'a'.toNat + 10
  else c.toNat - 'A'.toNat + 10

/-- Underscore placement rule of Python numeric literals: an underscore must
sit between two hex digits.  The argument slices fed by `parse_color` are at
most two characters long, so any underscore is invalid there. -/
def hexBodyOk : List Char → Bool
  | [] => false
  | cs => cs.all (fun c => isHexDigitCh c ∨ c = '_')
      ∧ ¬ cs.head? = some '_'
      ∧ ¬ cs.getLast? = some '_'
      ∧ (cs.zip cs.tail).all (fun p => ¬ (p.1 = '_' ∧ p.2 = '_'))

def hexBodyVal (cs : List Char) : ℕ :=
  (cs.filter (fun c => ¬ c = '_')).foldl (fun a c => 16 * a + hexVal c) 0

/-- Python's `int(s, 16)`: strip whitespace, optional sign, then hex digits
(with the underscore rule).  Returns `none` where CPython raises
`ValueError`. -/
def pyIntHex (cs : List Char) : Option ℤ :=
  let t := ((cs.dropWhile isPySpace).reverse.dropWhile isPySpace).reverse
  match t with
  | '+' :: rest => if hexBodyOk rest then some (hexBodyVal rest) else none
  | '-' :: rest => if hexBodyOk rest then some (-(hexBodyVal rest : ℤ)) else none
  | rest => if hexBodyOk rest then some (hexBodyVal rest) else none

/-- Python slice `s[i:i+n]` on a character list (clamping, never raising). -/
def pySlice (cs : List Char) (i n : ℕ) : List Char :=
  (cs.drop i).take n

/-- `parse_color` (main.py lines 22-34): drop a leading `#`, then parse the
three two-character slices at offsets 0, 2, 4 as hex.  `none` corresponds to
the `ValueError` Python raises on a bad slice. -/
def parse_color (s : String) : Option (ℤ × ℤ × ℤ) :=
  let cs := match s.data with
    | '#' :: rest => rest
    | other => other
  match pyIntHex (pySlice cs 0 2), pyIntHex (pySlice cs 2 2), pyIntHex (pySlice cs 4 2) with
  | some r, some g, some b => some (r, g, b)
  | _, _, _ => none

/-- The warning text printed by `generate_qr_with_logo` when `parse_color`
raises (main.py line 157). -/
def colorWarning (s : String) : String :=
  ("Invalid color format: ") ++ s ++ (". Using default black (#000000)")

/-- The `try/except` around `parse_color` in `generate_qr_with_logo`
(main.py lines 154-158): the parsed triple, or black plus a warning line. -/
def chooseGradientColor (s : String) : (ℤ × ℤ × ℤ) × List String :=
  match parse_color s with
  | some c => (c, [])
  | none => ((0, 0, 0), [colorWarning s])

/-- Written from the words of the spec, for comparison with the code: a
well-formed colour string is exactly six hex digits, with one optional
leading `#`. -/
def isSixHexColor (s : String) : Bool :=
  let cs := match s.data with
    | '#' :: rest => rest
    | other => other
  cs.length = 6 ∧ cs.all isHexDigitCh

/-! ### A model of PIL raster images -/

/-- One pixel; `a` is the alpha band (255 = opaque).  Channels of images
produced by PIL always lie in `0..255`; theorems that need this carry it as
the `pixValid` hypothesis. -/
structure Pixel where
  r : ℕ
  g : ℕ
  b : ℕ
  a : ℕ
deriving DecidableEq

/-- PIL image modes relevant to `main.py`: the QR canvas is `RGB`, a logo
file may decode to `RGB`, `RGBA`, or (modelled from PIL's documented modes)
`LA`, grayscale with an alpha band. -/
inductive PMode
  | RGB
  | RGBA
  | LA
deriving DecidableEq

/-- Modelled from PIL: the modes (among those above) that carry an alpha
band. -/
def hasAlphaBand : PMode → Bool
  | PMode.RGBA => true
  | PMode.LA => true
  | PMode.RGB => false

/-- A PIL image: an object identity (Python `id`), a size, a mode and the
pixel contents.  `pix` is total; only arguments below `width`/`height` are
meaningful. -/
structure PImg where
  oid : ℕ
  width : ℕ
  height : ℕ
  mode : PMode
  pix : ℕ → ℕ → Pixel

abbrev pixValid (p : Pixel) : Prop :=
  p.r ≤ 255 ∧ p.g ≤ 255 ∧ p.b ≤ 255 ∧ p.a = 255

def whitePx : Pixel := ⟨255, 255, 255, 255⟩

def blackPx : Pixel := ⟨0, 0, 0, 255⟩

/-- `Image.copy()`: same contents, a fresh object identity. -/
def imgCopy (fresh : ℕ) (im : PImg) : PImg := { im with oid := fresh }

/-! ### `Image.thumbnail` (PIL), used at main.py line 62

Modelled from Pillow's source: `thumbnail(size)` returns unchanged when the
box already contains the image; otherwise it computes the aspect-preserving
target with `round_aspect` (floor or ceil, whichever the key prefers, never
below 1) and calls `resize`, which raises on a non-positive dimension.
Python's float arithmetic is modelled with exact rationals; `x / y` with
`y = 0` (a zero box) is the `ZeroDivisionError` case, returned as `none`
like every other raised exception. -/

def roundAspect (r : ℚ) (key : ℤ → ℚ) : ℤ :=
  max (if key ⌊r⌋ ≤ key ⌈r⌉ then ⌊r⌋ else ⌈r⌉) 1

/-- The final `resize` step: succeeds only on positive dimensions. -/
def thumbCheck (a b : ℤ) : Option (ℕ × ℕ) :=
  if 0 < a ∧ 0 < b then some (a.toNat, b.toNat) else none

/-- `im.thumbnail((box, box))` for an image of size `w × h`, returning the
resulting size, or `none` where PIL raises. -/
def pilThumbnail (w h : ℕ) (box : ℤ) : Option (ℕ × ℕ) :=
  if (w : ℤ) ≤ box ∧ (h : ℤ) ≤ box then
    some (w, h)
  else if box = 0 then
    none
  else if (1 : ℚ) ≥ (w : ℚ) / (h : ℚ) then
    thumbCheck
      (roundAspect ((box : ℚ) * ((w : ℚ) / (h : ℚ)))
        (fun n => |(w : ℚ) / (h : ℚ) - (n : ℚ) / (box : ℚ)|))
      box
  else
    thumbCheck box
      (roundAspect ((box : ℚ) / ((w : ℚ) / (h : ℚ)))
        (fun n => if n = 0 then 0 else |(w : ℚ) / (h : ℚ) - (box : ℚ) / (n : ℚ)|))

/-! ### `overlay_logo_on_qr` (main.py lines 37-90) -/

/-- main.py lines 54-59: `logo_size = min(qr_width, qr_height) // 4`, then
`logo_size = logo_size - logo_gap * 2` when `logo_gap > 0`. -/
def logoBoxSize (qw qh gap : ℕ) : ℤ :=
  ((min qw qh / 4 : ℕ) : ℤ) - (if 0 < gap then 2 * (gap : ℤ) else 0)

/-- The size of the logo after `logo.thumbnail((logo_size, logo_size))`. -/
def resizedDims (qw qh lw lh gap : ℕ) : Option (ℕ × ℕ) :=
  pilThumbnail lw lh (logoBoxSize qw qh gap)

/-- `ImageDraw.Draw(im).rectangle([x0, y0, x1, y1], fill=c)`.  Modelled from
PIL: both corner points are inclusive; drawing is clipped to the image. -/
def drawRectangle (im : PImg) (x0 y0 x1 y1 : ℤ) (c : Pixel) : PImg :=
  { im with pix := fun px py =>
      if x0 ≤ (px : ℤ) ∧ (px : ℤ) ≤ x1 ∧ y0 ≤ (py : ℤ) ∧ (py : ℤ) ≤ y1
          ∧ px < im.width ∧ py < im.height then c
      else im.pix px py }

/-- The pixel region covered by the backing rectangle of main.py lines
74-82: `[x - gap, y - gap, x + lw + gap, y + lh + gap]` with both corners
inclusive (PIL's `ImageDraw.rectangle` convention). -/
abbrev backingRegion (x y lw lh gap px py : ℕ) : Prop :=
  (x : ℤ) - gap ≤ px ∧ (px : ℤ) ≤ (x : ℤ) + lw + gap
    ∧ (y : ℤ) - gap ≤ py ∧ (py : ℤ) ≤ (y : ℤ) + lh + gap

/-- main.py lines 74-82: the white backing rectangle, drawn only when
`logo_gap > 0`. -/
def withBacking (im : PImg) (x y lw lh gap : ℕ) : PImg :=
  if 0 < gap then
    drawRectangle im ((x : ℤ) - gap) ((y : ℤ) - gap)
      ((x : ℤ) + lw + gap) ((y : ℤ) + lh + gap) whitePx
  else im

/-- PIL's exact `MULDIV255` macro: `a * b / 255` with correct rounding. -/
def muldiv255 (a b : ℕ) : ℕ :=
  ((a * b + 128) / 256 + (a * b + 128)) / 256

/-- PIL's `BLEND` macro, used by `paste` with a mask band `m`. -/
def blendChan (m c1 c2 : ℕ) : ℕ :=
  muldiv255 c1 (255 - m) + muldiv255 c2 m

/-- `canvas.paste(lg, (x, y))` with no mask: an opaque paste, converted to
the RGB canvas (alpha dropped), clipped to the canvas. -/
def pasteOpaque (canvas lg : PImg) (x y : ℕ) : PImg :=
  { canvas with pix := fun px py =>
      if x ≤ px ∧ px < x + lg.width ∧ y ≤ py ∧ py < y + lg.height
          ∧ px < canvas.width ∧ py < canvas.height then
        ⟨(lg.pix (px - x) (py - y)).r, (lg.pix (px - x) (py - y)).g,
         (lg.pix (px - x) (py - y)).b, 255⟩
      else canvas.pix px py }

/-- `canvas.paste(lg, (x, y), lg)` with the RGBA logo as its own mask:
per-channel blend by the logo's alpha band (PIL's `BLEND`). -/
def pasteMasked (canvas lg : PImg) (x y : ℕ) : PImg :=
  { canvas with pix := fun px py =>
      if x ≤ px ∧ px < x + lg.width ∧ y ≤ py ∧ py < y + lg.height
          ∧ px < canvas.width ∧ py < canvas.height then
        ⟨blendChan (lg.pix (px - x) (py - y)).a (canvas.pix px py).r
           (lg.pix (px - x) (py - y)).r,
         blendChan (lg.pix (px - x) (py - y)).a (canvas.pix px py).g
           (lg.pix (px - x) (py - y)).g,
         blendChan (lg.pix (px - x) (py - y)).a (canvas.pix px py).b
           (lg.pix (px - x) (py - y)).b, 255⟩
      else canvas.pix px py }

/-- main.py lines 85-88: `if logo.mode == 'RGBA'` use the logo as its own
paste mask, else paste opaquely. -/
def pastedLogo (canvas lg : PImg) (x y : ℕ) : PImg :=
  if lg.mode = PMode.RGBA then pasteMasked canvas lg x y else pasteOpaque canvas lg x y

/-- `overlay_logo_on_qr` (main.py lines 37-90).  `loadLogo` is the
`Image.open` boundary; `resample` abstracts the LANCZOS pixel resampling of
`thumbnail` (its output size is `pilThumbnail`'s).  Returns
`(final value of the qr_img argument, returned image)`, or `none` where the
Python raises.  The copy at line 70 receives the fresh object id. -/
def overlay_logo_on_qr (fresh : ℕ) (loadLogo : String → Option PImg)
    (resample : (ℕ → ℕ → Pixel) → ℕ × ℕ → ℕ × ℕ → ℕ → ℕ → Pixel)
    (qr_img : PImg) (logo_path : String) (logo_gap : ℕ) : Option (PImg × PImg) :=
  match loadLogo logo_path with
  | none => none
  | some logo =>
    match resizedDims qr_img.width qr_img.height logo.width logo.height logo_gap with
    | none => none
    | some (lw, lh) =>
      let logoR : PImg :=
        ⟨logo.oid, lw, lh, logo.mode, resample logo.pix (logo.width, logo.height) (lw, lh)⟩
      let x := (qr_img.width - lw) / 2
      let y := (qr_img.height - lh) / 2
      let base := withBacking (imgCopy fresh qr_img) x y lw lh logo_gap
      some (qr_img, pastedLogo base logoR x y)

/-! ### `generate_qr_with_logo` (main.py lines 93-204) and `main` (207-238) -/

inductive ECLevel
  | L
  | M
  | Q
  | H
deriving DecidableEq

/-- The arguments of the `qrcode.QRCode(...)` constructor call at
main.py lines 141-146. -/
structure QRConfig where
  version : ℕ
  error_correction : ECLevel
  box_size : ℕ
  border : ℕ
deriving DecidableEq

/-- main.py lines 113-120: `size_map` and its `.get(size, 10)`. -/
def size_map (s : String) : ℕ :=
  (([(("normal"), 10), (("large"), 15), (("xlarge"), 20)] : List (String × ℕ)).lookup s).getD 10

/-- The module drawer objects of the `qrcode` library, reduced to the data
`main.py` selects on. -/
inductive ModuleDrawer
  | circle
  | gapped
  | horizontal
  | square
  | vertical
  | rounded (rr : ℚ)
deriving DecidableEq

/-- main.py lines 123-130: the `style_map` dict.  The `"rounded"` entry is
constructed as `RoundedModuleDrawer(radius_ratio=0.5)`. -/
def style_map : List (String × ModuleDrawer) :=
  [(("circle"), ModuleDrawer.circle),
   (("gapped"), ModuleDrawer.gapped),
   (("horizontal"), ModuleDrawer.horizontal),
   (("rounded"), ModuleDrawer.rounded (1 / 2)),
   (("square"), ModuleDrawer.square),
   (("vertical"), ModuleDrawer.vertical)]

/-- main.py line 151: `style_map.get(style, RoundedModuleDrawer())`.
Modelled from the qrcode library source: `RoundedModuleDrawer.__init__` has
default `radius_ratio=1`, so the fallback drawer has ratio 1. -/
def styleDrawer (style : String) : ModuleDrawer :=
  (style_map.lookup style).getD (ModuleDrawer.rounded 1)

inductive GradFamily
  | radial
  | squareG
  | horizontal
  | vertical
deriving DecidableEq

/-- main.py lines 133-138: the `gradient_map` dict of color-mask classes. -/
def gradient_map : List (String × GradFamily) :=
  [(("radial"), GradFamily.radial),
   (("square"), GradFamily.squareG),
   (("horizontal"), GradFamily.horizontal),
   (("vertical"), GradFamily.vertical)]

/-- A constructed color mask: its family and the three colour arguments.
`color0` is the first endpoint (`center_color` / `left_color` /
`top_color`), `color1` the second (`edge_color` / `right_color` /
`bottom_color`). -/
structure ColorMaskCfg where
  family : GradFamily
  back_color : ℤ × ℤ × ℤ
  color0 : ℤ × ℤ × ℤ
  color1 : ℤ × ℤ × ℤ
deriving DecidableEq

/-- main.py lines 162-189: pick the mask class with
`gradient_map.get(gradient_type, RadialGradiantColorMask)`, then construct
it with `back_color=(255,255,255)`, first endpoint `(0,0,0)` and second
endpoint `color_rgb`, through the four `if/elif/else` branches. -/
def buildColorMask (gradient_type : String) (color_rgb : ℤ × ℤ × ℤ) : ColorMaskCfg :=
  let fam := (gradient_map.lookup gradient_type).getD GradFamily.radial
  if gradient_type = ("radial") ∨ gradient_type = ("square") then
    ⟨fam, (255, 255, 255), (0, 0, 0), color_rgb⟩
  else if gradient_type = ("horizontal") then
    ⟨fam, (255, 255, 255), (0, 0, 0), color_rgb⟩
  else if gradient_type = ("vertical") then
    ⟨fam, (255, 255, 255), (0, 0, 0), color_rgb⟩
  else
    ⟨fam, (255, 255, 255), (0, 0, 0), color_rgb⟩

/-- The external collaborators of `generate_qr_with_logo`: the symbol
encoder (`qr.add_data`/`qr.make`, failing on capacity), the styled
rendering (`qr.make_image`, returning the gradient-coloured module raster),
the logo decode (`Image.open`), the LANCZOS resampler, the fresh object id
for `Image.copy`, and the success of `img.save`. -/
structure Effects where
  encode : String → QRConfig → Option ℕ
  render : ℕ → QRConfig → ModuleDrawer → ColorMaskCfg → PImg
  loadLogo : String → Option PImg
  resample : (ℕ → ℕ → Pixel) → ℕ × ℕ → ℕ × ℕ → ℕ → ℕ → Pixel
  fresh : ℕ
  saveOk : PImg → String → Bool

/-- Observable steps of one `generate_qr_with_logo` call, in order. -/
inductive Ev
  | encoded (cfg : QRConfig)
  | rendered (drawer : ModuleDrawer) (mask : ColorMaskCfg) (img : PImg)
  | overlaid (img : PImg)
  | writeTried (path : String) (img : PImg)
  | written (path : String) (img : PImg)

/-- Result of one `generate_qr_with_logo` call: the stdout lines it
printed, the steps it performed, and the exception it raised, if any. -/
structure GenRes where
  out : List String
  trace : List Ev
  err : Option String

/-- The `qrcode.QRCode(...)` arguments: `version=1`,
`error_correction=ERROR_CORRECT_H`, `box_size=size_map.get(size, 10)`,
`border=4` (main.py lines 141-146). -/
def qrCfg (size : String) : QRConfig :=
  ⟨1, ECLevel.H, size_map size, 4⟩

/-- main.py lines 198-200: `if logo_path:` (skipped for `None` and for the
empty string, which is falsy) overlay the logo on the rendered image.
Returns the image to save plus the overlay event, or `none` where the
overlay raised. -/
def logoStep (fx : Effects) (img : PImg) (logo_path : Option String) (gap : ℕ) :
    Option (PImg × List Ev) :=
  match logo_path with
  | none => some (img, [])
  | some p =>
    if p = ("") then some (img, [])
    else
      match overlay_logo_on_qr fx.fresh fx.loadLogo fx.resample img p gap with
      | none => none
      | some q => some (q.2, [Ev.overlaid q.2])

/-- The configuration invariants claimed of every render: the `encoded`
event carries error-correction H and border 4; every `rendered` mask has a
white background, black first endpoint and the (fallback-resolved) gradient
colour as second endpoint. -/
def renderInvariant (gc : String) : Ev → Prop
  | Ev.encoded cfg => cfg.error_correction = ECLevel.H ∧ cfg.border = 4
  | Ev.rendered _ m _ =>
      m.back_color = (255, 255, 255) ∧ m.color0 = (0, 0, 0)
        ∧ m.color1 = (chooseGradientColor gc).1
  | _ => True

/-- `generate_qr_with_logo` (main.py lines 93-204), embedded over the
`Effects` oracles.  Order follows the source: encode, pick drawer, parse
colour (printing the warning on failure), build mask, render, overlay when
`logo_path` is truthy, save, print the saved message. -/
def generate_qr_with_logo (fx : Effects) (data : String) (logo_path : Option String)
    (logo_gap : ℕ) (output_path : String) (style : String) (gradient_type : String)
    (gradient_color : String) (size : String) : GenRes :=
  match fx.encode data (qrCfg size) with
  | none => ⟨[], [], some ("data overflow")⟩
  | some n =>
    let module_drawer := styleDrawer style
    let cw := chooseGradientColor gradient_color
    let mask := buildColorMask gradient_type cw.1
    let img := fx.render n (qrCfg size) module_drawer mask
    let tr0 : List Ev := [Ev.encoded (qrCfg size), Ev.rendered module_drawer mask img]
    match logoStep fx img logo_path logo_gap with
    | none => ⟨cw.2, tr0, some ("logo error")⟩
    | some fe =>
      if fx.saveOk fe.1 output_path then
        ⟨cw.2 ++ [("QR code saved to ") ++ output_path],
         tr0 ++ fe.2 ++ [Ev.writeTried output_path fe.1, Ev.written output_path fe.1],
         none⟩
      else
        ⟨cw.2, tr0 ++ fe.2 ++ [Ev.writeTried output_path fe.1], some ("save error")⟩

/-- Outcome of a `main` invocation: exit code, the two output streams, and
the files successfully written. -/
structure MainRes where
  exitCode : ℕ
  stdout : List String
  stderr : List String
  written : List (String × PImg)

def writtenFiles : List Ev → List (String × PImg)
  | [] => []
  | Ev.written p i :: rest => (p, i) :: writtenFiles rest
  | _ :: rest => writtenFiles rest

/-- `main` (main.py lines 207-238): run `generate_qr_with_logo` under
`try`; on an exception, `print(f"Error generating QR code: {e}")` — which
goes to standard output — and `sys.exit(1)`.  Nothing in `main.py` writes
to the error stream. -/
def main_model (fx : Effects) (data : String) (logo : Option String) (logo_gap : ℕ)
    (output : String) (style gradient_type gradient_color size : String) : MainRes :=
  let r := generate_qr_with_logo fx data logo logo_gap output style gradient_type
    gradient_color size
  match r.err with
  | none => ⟨0, r.out, [], writtenFiles r.trace⟩
  | some e => ⟨1, r.out ++ [("Error generating QR code: ") ++ e], [], writtenFiles r.trace⟩

/-! ### Concrete sample data used by witnesses and counterexamples -/

/-- An all-black RGB canvas. -/
def blackImg (w h : ℕ) : PImg := ⟨0, w, h, PMode.RGB, fun _ _ => blackPx⟩

/-- An 8×8 opaque RGB logo. -/
def rgbLogo : PImg := ⟨5, 8, 8, PMode.RGB, fun _ _ => ⟨10, 20, 30, 255⟩⟩

/-- An 8×8 grayscale-plus-alpha (`LA`) logo, fully transparent. -/
def laLogo : PImg := ⟨6, 8, 8, PMode.LA, fun _ _ => ⟨7, 7, 7, 0⟩⟩

/-- An 8×8 RGBA logo, fully transparent. -/
def rgbaLogo : PImg := ⟨7, 8, 8, PMode.RGBA, fun _ _ => ⟨9, 9, 9, 0⟩⟩

/-- A resampler that keeps the source pixel function. -/
def keepResample : (ℕ → ℕ → Pixel) → ℕ × ℕ → ℕ × ℕ → ℕ → ℕ → Pixel :=
  fun pf _ _ => pf

/-- Effects where everything succeeds and the logo decodes to `rgbLogo`. -/
def okFx : Effects :=
  ⟨fun _ _ => some 21, fun _ _ _ _ => blackImg 210 210, fun _ => some rgbLogo,
   keepResample, 1, fun _ _ => true⟩

/-- Effects where `Image.open` fails. -/
def failLoadFx : Effects :=
  ⟨fun _ _ => some 21, fun _ _ _ _ => blackImg 210 210, fun _ => none,
   keepResample, 1, fun _ _ => true⟩

/-! ## Helper lemmas -/

theorem roundAspect_cases (r : ℚ) (k : ℤ → ℚ) :
    roundAspect r k = max ⌊r⌋ 1 ∨ roundAspect r k = max ⌈r⌉ 1 := by
  unfold roundAspect
  split
  · exact Or.inl rfl
  · exact Or.inr rfl

theorem one_le_roundAspect (r : ℚ) (k : ℤ → ℚ) : 1 ≤ roundAspect r k := by
  rcases roundAspect_cases r k with h | h <;> rw [h] <;> exact le_max_right _ _

theorem roundAspect_le {r : ℚ} {n : ℤ} (k : ℤ → ℚ) (h1 : r ≤ (n : ℚ)) (h2 : 1 ≤ n) :
    roundAspect r k ≤ n := by
  have hfl : ⌊r⌋ ≤ n := by
    have : ((⌊r⌋ : ℤ) : ℚ) ≤ (n : ℚ) := le_trans (Int.floor_le r) h1
    exact_mod_cast this
  have hcl : ⌈r⌉ ≤ n := Int.ceil_le.mpr h1
  rcases roundAspect_cases r k with h | h <;> rw [h]
  · exact max_le hfl h2
  · exact max_le hcl h2

theorem roundAspect_close {r : ℚ} (k : ℤ → ℚ) (h0 : 0 < r) :
    |(roundAspect r k : ℚ) - r| ≤ 1 := by
  rcases roundAspect_cases r k with h | h <;> rw [h]
  · rcases le_or_lt 1 ⌊r⌋ with hf | hf
    · rw [max_eq_left hf]
      rw [abs_sub_le_iff]
      constructor
      · have := Int.floor_le r
        linarith
      · have := Int.lt_floor_add_one r
        push_cast at this ⊢
        linarith
    · have hf0 : ⌊r⌋ ≤ 0 := by omega
      rw [max_eq_right (by omega)]
      have hr1 : r < 1 := by
        have := Int.lt_floor_add_one r
        have : r < (⌊r⌋ : ℚ) + 1 := this
        have hc : ((⌊r⌋ : ℤ) : ℚ) ≤ 0 := by exact_mod_cast hf0
        linarith
      rw [abs_sub_le_iff]
      push_cast
      constructor <;> linarith
  · have hcpos : 1 ≤ ⌈r⌉ := Int.ceil_pos.mpr h0
    rw [max_eq_left hcpos]
    rw [abs_sub_le_iff]
    constructor
    · have := Int.ceil_lt_add_one r
      push_cast at this ⊢
      linarith
    · have := Int.le_ceil r
      linarith

theorem pilThumbnail_facts {w h : ℕ} {box : ℤ} {a b : ℕ}
    (hw : 1 ≤ w) (hh : 1 ≤ h)
    (hres : pilThumbnail w h box = some (a, b)) :
    1 ≤ box ∧ (a : ℤ) ≤ box ∧ (b : ℤ) ≤ box ∧ a ≤ w ∧ b ≤ h ∧
      |(a : ℤ) * h - (b : ℤ) * w| ≤ ((max w h : ℕ) : ℤ) ∧
      max a b = min box.toNat (max w h) := by
  have hwQ : (0 : ℚ) < w := by exact_mod_cast hw
  have hhQ : (0 : ℚ) < h := by exact_mod_cast hh
  unfold pilThumbnail at hres
  split_ifs at hres with h1 h2 h3
  · rw [Option.some_inj, Prod.mk.injEq] at hres
    obtain ⟨rfl, rfl⟩ := hres
    refine ⟨by omega, by omega, by omega, le_refl _, le_refl _, ?_, by omega⟩
    have hz : (w : ℤ) * h - (h : ℤ) * w = 0 := by ring
    rw [hz]
    simp
  · -- fit branch, aspect ≤ 1 (w ≤ h): new width from round_aspect, height box
    unfold thumbCheck at hres
    split_ifs at hres with hp
    · rw [Option.some_inj, Prod.mk.injEq] at hres
      obtain ⟨ha, hb⟩ := hres
      have hA1 : (w : ℚ) / h ≤ 1 := h3
      have hwh : w ≤ h := by
        rw [div_le_one hhQ] at hA1
        exact_mod_cast hA1
      have hboxh : box < (h : ℤ) := by omega
      have hbox1 : (1 : ℤ) ≤ box := hp.2
      have hboxQ : (0 : ℚ) < (box : ℚ) := by exact_mod_cast hbox1
      have hApos : (0 : ℚ) < (w : ℚ) / h := div_pos hwQ hhQ
      have hrpos : (0 : ℚ) < (box : ℚ) * ((w : ℚ) / h) := mul_pos hboxQ hApos
      have hrlebox : (box : ℚ) * ((w : ℚ) / h) ≤ (box : ℚ) :=
        mul_le_of_le_one_right hboxQ.le hA1
      have hhw_id : (h : ℚ) * ((w : ℚ) / h) = w := by field_simp
      have hrlew : (box : ℚ) * ((w : ℚ) / h) ≤ (w : ℚ) := by
        have hbh : (box : ℚ) ≤ (h : ℚ) := by exact_mod_cast hboxh.le
        calc (box : ℚ) * ((w : ℚ) / h) ≤ (h : ℚ) * ((w : ℚ) / h) :=
              mul_le_mul_of_nonneg_right hbh hApos.le
          _ = w := hhw_id
      set nx := roundAspect ((box : ℚ) * ((w : ℚ) / h))
        (fun n => |(w : ℚ) / (h : ℚ) - (n : ℚ) / (box : ℚ)|) with hnx
      have hnxbox : nx ≤ box := roundAspect_le _ hrlebox hbox1
      have hnxw : nx ≤ (w : ℤ) := by
        refine roundAspect_le _ ?_ (by exact_mod_cast hw)
        push_cast
        exact hrlew
      have hnx1 : 1 ≤ nx := one_le_roundAspect _ _
      have haz : (a : ℤ) = nx := by
        rw [← ha, Int.toNat_of_nonneg (by omega)]
      have hbz : (b : ℤ) = box := by
        rw [← hb, Int.toNat_of_nonneg (by omega)]
      have hclose : |(nx : ℚ) - (box : ℚ) * ((w : ℚ) / h)| ≤ 1 :=
        roundAspect_close _ hrpos
      have habsQ : |(nx : ℚ) * h - (box : ℚ) * w| ≤ (h : ℚ) := by
        have hrh : ((box : ℚ) * ((w : ℚ) / h)) * h = (box : ℚ) * w := by field_simp
        have : (nx : ℚ) * h - (box : ℚ) * w
            = ((nx : ℚ) - (box : ℚ) * ((w : ℚ) / h)) * h := by
          rw [sub_mul, hrh]
        rw [this, abs_mul, abs_of_pos hhQ]
        calc |(nx : ℚ) - (box : ℚ) * ((w : ℚ) / h)| * h ≤ 1 * h :=
              mul_le_mul_of_nonneg_right hclose hhQ.le
          _ = h := one_mul _
      have habsZ : |(a : ℤ) * h - (b : ℤ) * w| ≤ (h : ℤ) := by
        rw [haz, hbz]
        have hcast : |((nx * h - box * w : ℤ) : ℚ)| ≤ ((h : ℤ) : ℚ) := by
          push_cast
          exact habsQ
        rw [← Int.cast_abs] at hcast
        exact_mod_cast hcast
      refine ⟨hbox1, by omega, by omega, by omega, by omega, ?_, by omega⟩
      refine le_trans habsZ ?_
      have : h ≤ max w h := le_max_right w h
      exact_mod_cast this
  · -- fit branch, aspect > 1 (h < w): new width box, height from round_aspect
    unfold thumbCheck at hres
    split_ifs at hres with hp
    · rw [Option.some_inj, Prod.mk.injEq] at hres
      obtain ⟨ha, hb⟩ := hres
      have hA1 : 1 < (w : ℚ) / h := lt_of_not_le h3
      have hhw : h < w := by
        rw [one_lt_div hhQ] at hA1
        exact_mod_cast hA1
      have hboxw : box < (w : ℤ) := by omega
      have hbox1 : (1 : ℤ) ≤ box := hp.1
      have hboxQ : (0 : ℚ) < (box : ℚ) := by exact_mod_cast hbox1
      have hApos : (0 : ℚ) < (w : ℚ) / h := div_pos hwQ hhQ
      have hrpos : (0 : ℚ) < (box : ℚ) / ((w : ℚ) / h) := div_pos hboxQ hApos
      have hrlebox : (box : ℚ) / ((w : ℚ) / h) ≤ (box : ℚ) :=
        div_le_self hboxQ.le hA1.le
      have hrleh : (box : ℚ) / ((w : ℚ) / h) ≤ (h : ℚ) := by
        rw [div_le_iff₀ hApos]
        have hbw : (box : ℚ) ≤ (w : ℚ) := by exact_mod_cast hboxw.le
        calc (box : ℚ) ≤ (w : ℚ) := hbw
          _ = (h : ℚ) * ((w : ℚ) / h) := by field_simp
      set ny := roundAspect ((box : ℚ) / ((w : ℚ) / h))
        (fun n => if n = 0 then 0 else |(w : ℚ) / (h : ℚ) - (box : ℚ) / (n : ℚ)|) with hny
      have hnybox : ny ≤ box := roundAspect_le _ hrlebox hbox1
      have hnyh : ny ≤ (h : ℤ) := by
        refine roundAspect_le _ ?_ (by exact_mod_cast hh)
        push_cast
        exact hrleh
      have hny1 : 1 ≤ ny := one_le_roundAspect _ _
      have haz : (a : ℤ) = box := by
        rw [← ha, Int.toNat_of_nonneg (by omega)]
      have hbz : (b : ℤ) = ny := by
        rw [← hb, Int.toNat_of_nonneg (by omega)]
      have hclose : |(ny : ℚ) - (box : ℚ) / ((w : ℚ) / h)| ≤ 1 :=
        roundAspect_close _ hrpos
      have habsQ : |(box : ℚ) * h - (ny : ℚ) * w| ≤ (w : ℚ) := by
        have hrw : ((box : ℚ) / ((w : ℚ) / h)) * w = (box : ℚ) * h := by
          field_simp
        have hsw : (box : ℚ) * h - (ny : ℚ) * w
            = -(((ny : ℚ) - (box : ℚ) / ((w : ℚ) / h)) * w) := by
          rw [sub_mul, hrw]
          ring
        rw [hsw, abs_neg, abs_mul, abs_of_pos hwQ]
        calc |(ny : ℚ) - (box : ℚ) / ((w : ℚ) / h)| * w ≤ 1 * w :=
              mul_le_mul_of_nonneg_right hclose hwQ.le
          _ = w := one_mul _
      have habsZ : |(a : ℤ) * h - (b : ℤ) * w| ≤ (w : ℤ) := by
        rw [haz, hbz]
        have hcast : |((box * h - ny * w : ℤ) : ℚ)| ≤ ((w : ℤ) : ℚ) := by
          push_cast
          exact habsQ
        rw [← Int.cast_abs] at hcast
        exact_mod_cast hcast
      refine ⟨hbox1, by omega, by omega, by omega, by omega, ?_, by omega⟩
      refine le_trans habsZ ?_
      have : w ≤ max w h := le_max_left w h
      exact_mod_cast this

theorem pilThumbnail_none {w h : ℕ} {box : ℤ} (hw : 1 ≤ w) (hbox : box ≤ 0) :
    pilThumbnail w h box = none := by
  unfold pilThumbnail
  split_ifs with h1 h2 h3
  · omega
  · rfl
  · unfold thumbCheck
    rw [if_neg (by omega)]
  · unfold thumbCheck
    rw [if_neg (by omega)]

theorem pilThumbnail_isSome {w h : ℕ} {box : ℤ} (hbox : 1 ≤ box) :
    (pilThumbnail w h box).isSome = true := by
  unfold pilThumbnail
  split_ifs with h1 h2 h3
  · rfl
  · omega
  · unfold thumbCheck
    rw [if_pos ⟨lt_of_lt_of_le zero_lt_one (one_le_roundAspect _ _), by omega⟩]
    rfl
  · unfold thumbCheck
    rw [if_pos ⟨by omega, lt_of_lt_of_le zero_lt_one (one_le_roundAspect _ _)⟩]
    rfl

theorem logoBoxSize_le (qw qh gap : ℕ) :
    logoBoxSize qw qh gap ≤ ((min qw qh / 4 : ℕ) : ℤ) := by
  unfold logoBoxSize
  split_ifs <;> omega

theorem logoBoxSize_anti (qw qh : ℕ) {g₁ g₂ : ℕ} (hg : g₁ ≤ g₂) :
    logoBoxSize qw qh g₂ ≤ logoBoxSize qw qh g₁ := by
  unfold logoBoxSize
  split_ifs <;> omega

theorem overlay_eq (fresh : ℕ) (loadLogo : String → Option PImg)
    (resample : (ℕ → ℕ → Pixel) → ℕ × ℕ → ℕ × ℕ → ℕ → ℕ → Pixel)
    (qr : PImg) (p : String) (gap : ℕ) {logo : PImg} {lw lh : ℕ}
    (hload : loadLogo p = some logo)
    (hdims : resizedDims qr.width qr.height logo.width logo.height gap = some (lw, lh)) :
    overlay_logo_on_qr fresh loadLogo resample qr p gap
      = some (qr, pastedLogo
          (withBacking (imgCopy fresh qr) ((qr.width - lw) / 2) ((qr.height - lh) / 2)
            lw lh gap)
          ⟨logo.oid, lw, lh, logo.mode, resample logo.pix (logo.width, logo.height) (lw, lh)⟩
          ((qr.width - lw) / 2) ((qr.height - lh) / 2)) := by
  unfold overlay_logo_on_qr
  simp only [hload, hdims]

theorem overlay_none_of_dims_none (fresh : ℕ) (loadLogo : String → Option PImg)
    (resample : (ℕ → ℕ → Pixel) → ℕ × ℕ → ℕ × ℕ → ℕ → ℕ → Pixel)
    (qr : PImg) (p : String) (gap : ℕ) {logo : PImg}
    (hload : loadLogo p = some logo)
    (hdims : resizedDims qr.width qr.height logo.width logo.height gap = none) :
    overlay_logo_on_qr fresh loadLogo resample qr p gap = none := by
  unfold overlay_logo_on_qr
  simp only [hload, hdims]

theorem pastedLogo_oid (canvas lg : PImg) (x y : ℕ) :
    (pastedLogo canvas lg x y).oid = canvas.oid := by
  unfold pastedLogo pasteMasked pasteOpaque
  split <;> rfl

theorem withBacking_oid (im : PImg) (x y lw lh gap : ℕ) :
    (withBacking im x y lw lh gap).oid = im.oid := by
  unfold withBacking drawRectangle
  split <;> rfl

theorem withBacking_dims (im : PImg) (x y lw lh gap : ℕ) :
    (withBacking im x y lw lh gap).width = im.width
      ∧ (withBacking im x y lw lh gap).height = im.height := by
  unfold withBacking drawRectangle
  split <;> exact ⟨rfl, rfl⟩

theorem muldiv255_zero (c : ℕ) : muldiv255 c 0 = 0 := by
  simp [muldiv255]

set_option maxRecDepth 16000 in
theorem muldiv255_full : ∀ c < 256, muldiv255 c 255 = c := by decide

/-! ## Claims -/

/-- C1 (amended): `parse_color("#FF00AA") = (255, 0, 170)` and
`parse_color("00FF00") = (0, 255, 0)` (leading `#` optional);
`parse_color` fails on `"ZZZZZZ"` and `"#12"`; whenever `parse_color`
raises, `generate_qr_with_logo` substitutes black `(0,0,0)` and prints the
documented warning, and whenever it succeeds the parsed triple is used with
no warning.  (Not every malformed string makes `parse_color` raise — see the
counterexample — so the fallback covers exactly the raising strings.) -/
theorem parse_color_fallback_spec :
    parse_color ("#FF00AA") = some (255, 0, 170)
    ∧ parse_color ("00FF00") = some (0, 255, 0)
    ∧ parse_color ("ZZZZZZ") = none
    ∧ parse_color ("#12") = none
    ∧ (∀ s, parse_color s = none →
        chooseGradientColor s = ((0, 0, 0), [colorWarning s]))
    ∧ (∀ s c, parse_color s = some c → chooseGradientColor s = (c, [])) := by
  refine ⟨by decide, by decide, by decide, by decide, ?_, ?_⟩
  · intro s hs
    unfold chooseGradientColor
    rw [hs]
  · intro s c hs
    unfold chooseGradientColor
    rw [hs]

theorem parse_color_fallback_witness :
    chooseGradientColor ("ZZZZZZ") = ((0, 0, 0), [colorWarning ("ZZZZZZ")]) :=
  parse_color_fallback_spec.2.2.2.2.1 ("ZZZZZZ") (by decide)

/-- C1 counterexample: `"#FF00AAZZ"` is not a six-hex-digit colour string,
yet `parse_color` accepts it (the slices stop at the sixth digit) and the
caller silently uses `(255, 0, 170)` instead of substituting black. -/
theorem parse_color_extra_digits_cx :
    isSixHexColor ("#FF00AAZZ") = false
    ∧ chooseGradientColor ("#FF00AAZZ") = ((255, 0, 170), [])
    ∧ ((255, 0, 170) : ℤ × ℤ × ℤ) ≠ (0, 0, 0) := by
  refine ⟨by decide, by decide, by decide⟩

/-- C2: the overlay computes the bound `min(qr_width, qr_height) // 4`
(fixed divisor 4), reduces it by `2 * logo_gap` when `logo_gap > 0`, and the
thumbnail resize never exceeds the bound nor the original size, preserving
the aspect ratio up to one rounding unit. -/
theorem overlay_resize_fits (qw qh lw lh gap a b : ℕ)
    (hw : 1 ≤ lw) (hh : 1 ≤ lh)
    (hres : resizedDims qw qh lw lh gap = some (a, b)) :
    logoBoxSize qw qh gap
        = ((min qw qh / 4 : ℕ) : ℤ) - (if 0 < gap then 2 * (gap : ℤ) else 0)
    ∧ (a : ℤ) ≤ logoBoxSize qw qh gap
    ∧ (b : ℤ) ≤ logoBoxSize qw qh gap
    ∧ a ≤ lw ∧ b ≤ lh
    ∧ |(a : ℤ) * lh - (b : ℤ) * lw| ≤ ((max lw lh : ℕ) : ℤ) := by
  obtain ⟨h1, h2, h3, h4, h5, h6, h7⟩ := pilThumbnail_facts hw hh hres
  exact ⟨rfl, h2, h3, h4, h5, h6⟩

theorem overlay_resize_fits_witness :
    resizedDims 100 100 8 6 3 = some (8, 6)
    ∧ (8 : ℤ) ≤ logoBoxSize 100 100 3 ∧ (6 : ℤ) ≤ logoBoxSize 100 100 3 :=
  ⟨by norm_num [resizedDims, logoBoxSize, pilThumbnail],
   (overlay_resize_fits 100 100 8 6 3 8 6 (by omega) (by omega)
     (by norm_num [resizedDims, logoBoxSize, pilThumbnail])).2.1,
   (overlay_resize_fits 100 100 8 6 3 8 6 (by omega) (by omega)
     (by norm_num [resizedDims, logoBoxSize, pilThumbnail])).2.2.1⟩

theorem withBacking_pix_in (im : PImg) (x y lw lh gap px py : ℕ) (hgap : 0 < gap)
    (hpx : px < im.width) (hpy : py < im.height)
    (hreg : backingRegion x y lw lh gap px py) :
    (withBacking im x y lw lh gap).pix px py = whitePx := by
  obtain ⟨h1, h2, h3, h4⟩ := hreg
  simp only [withBacking, if_pos hgap, drawRectangle]
  rw [if_pos ⟨h1, h2, h3, h4, hpx, hpy⟩]

theorem withBacking_pix_out (im : PImg) (x y lw lh gap px py : ℕ)
    (hreg : ¬ backingRegion x y lw lh gap px py) :
    (withBacking im x y lw lh gap).pix px py = im.pix px py := by
  unfold withBacking
  split_ifs with hgap
  · simp only [drawRectangle]
    rw [if_neg]
    intro hc
    exact hreg ⟨hc.1, hc.2.1, hc.2.2.1, hc.2.2.2.1⟩
  · rfl

theorem pastedLogo_pix_out (canvas lg : PImg) (x y px py : ℕ)
    (h : ¬ (x ≤ px ∧ px < x + lg.width ∧ y ≤ py ∧ py < y + lg.height)) :
    (pastedLogo canvas lg x y).pix px py = canvas.pix px py := by
  unfold pastedLogo
  split_ifs with hm
  · simp only [pasteMasked]
    rw [if_neg]
    intro hc
    exact h ⟨hc.1, hc.2.1, hc.2.2.1, hc.2.2.2.1⟩
  · simp only [pasteOpaque]
    rw [if_neg]
    intro hc
    exact h ⟨hc.1, hc.2.1, hc.2.2.1, hc.2.2.2.1⟩

theorem resizedDims_40_40_8_8_0 : resizedDims 40 40 8 8 0 = some (8, 8) := by
  norm_num [resizedDims, logoBoxSize, pilThumbnail]

theorem resizedDims_40_40_8_8_2 : resizedDims 40 40 8 8 2 = some (6, 6) := by
  norm_num [resizedDims, logoBoxSize, pilThumbnail, roundAspect, thumbCheck]
  decide

/-- C3 (amended): the logo is placed at `x = (width - lw) // 2`,
`y = (height - lh) // 2`; when `logo_gap > 0` an opaque white rectangle is
first painted over `[x - gap, y - gap, x + lw + gap, y + lh + gap]` with
both corners inclusive (PIL semantics), i.e. a solid rectangle of side
`(lw + 2*gap + 1) x (lh + 2*gap + 1)` — one pixel more per side than the
claimed `lw + 2*gap` — and nothing outside that inclusive region changes. -/
theorem backing_rectangle_spec (fresh : ℕ) (loadLogo : String → Option PImg)
    (resample : (ℕ → ℕ → Pixel) → ℕ × ℕ → ℕ × ℕ → ℕ → ℕ → Pixel)
    (qr : PImg) (p : String) (gap : ℕ) (logo : PImg) (lw lh : ℕ)
    (hload : loadLogo p = some logo)
    (hdims : resizedDims qr.width qr.height logo.width logo.height gap = some (lw, lh))
    (hgap : 0 < gap) :
    (∀ px py : ℕ, px < qr.width → py < qr.height →
      (backingRegion ((qr.width - lw) / 2) ((qr.height - lh) / 2) lw lh gap px py →
        (withBacking (imgCopy fresh qr) ((qr.width - lw) / 2) ((qr.height - lh) / 2)
          lw lh gap).pix px py = whitePx)
      ∧ (¬ backingRegion ((qr.width - lw) / 2) ((qr.height - lh) / 2) lw lh gap px py →
        (withBacking (imgCopy fresh qr) ((qr.width - lw) / 2) ((qr.height - lh) / 2)
          lw lh gap).pix px py = qr.pix px py))
    ∧ (∀ av rv, overlay_logo_on_qr fresh loadLogo resample qr p gap = some (av, rv) →
      ∀ px py : ℕ,
        ¬ backingRegion ((qr.width - lw) / 2) ((qr.height - lh) / 2) lw lh gap px py →
        rv.pix px py = qr.pix px py) := by
  constructor
  · intro px py hpx hpy
    constructor
    · intro hreg
      exact withBacking_pix_in (imgCopy fresh qr) _ _ lw lh gap px py hgap hpx hpy hreg
    · intro hreg
      rw [withBacking_pix_out (imgCopy fresh qr) _ _ lw lh gap px py hreg]
      rfl
  · intro av rv hov px py hreg
    rw [overlay_eq fresh loadLogo resample qr p gap hload hdims] at hov
    rw [Option.some_inj, Prod.mk.injEq] at hov
    obtain ⟨rfl, rfl⟩ := hov
    rw [pastedLogo_pix_out]
    · exact withBacking_pix_out (imgCopy fresh qr) _ _ lw lh gap px py hreg
    · intro hc
      obtain ⟨c1, c2, c3, c4⟩ := hc
      have c2x : px < (qr.width - lw) / 2 + lw := c2
      have c4x : py < (qr.height - lh) / 2 + lh := c4
      exact hreg ⟨by omega, by omega, by omega, by omega⟩

theorem backing_rectangle_spec_witness :
    (withBacking (imgCopy 1 (blackImg 40 40)) (((blackImg 40 40).width - 6) / 2)
      (((blackImg 40 40).height - 6) / 2) 6 6 2).pix 16 16 = whitePx :=
  ((backing_rectangle_spec 1 (fun _ => some rgbLogo) keepResample (blackImg 40 40)
      ("logo.png") 2 rgbLogo 6 6 rfl resizedDims_40_40_8_8_2 (by omega)).1 16 16
      (by decide) (by decide)).1 (by decide)

/-- C3 counterexample: canvas 40x40, logo resized to 6x6, gap 2, placement
x = y = 17.  The pixel in column `15 + (6 + 2*2) = 25` — offset
`lw + 2*gap` from the rectangle's left edge at 15, hence outside any square
of side `lw + 2*gap` starting there — is nevertheless painted white, because
PIL's rectangle endpoints are inclusive. -/
theorem backing_rectangle_cx :
    (((overlay_logo_on_qr 1 (fun _ => some rgbLogo) keepResample (blackImg 40 40)
        ("logo.png") 2).map Prod.snd).getD (blackImg 1 1)).pix (15 + (6 + 2 * 2)) 20
      = whitePx
    ∧ (blackImg 40 40).pix (15 + (6 + 2 * 2)) 20 = blackPx
    ∧ whitePx ≠ blackPx := by
  have h := overlay_eq 1 (fun _ => some rgbLogo) keepResample (blackImg 40 40)
    ("logo.png") 2 rfl resizedDims_40_40_8_8_2
  refine ⟨?_, by decide, by decide⟩
  rw [h]
  simp only [Option.map_some', Option.getD_some]
  rw [pastedLogo_pix_out _ _ _ _ _ _ (by decide)]
  exact withBacking_pix_in _ _ _ 6 6 2 _ 20 (by decide) (by decide) (by decide) (by decide)

theorem blend_alpha_zero (cp lp : Pixel) (hval : pixValid cp) (ha : lp.a = 0) :
    Pixel.mk (blendChan lp.a cp.r lp.r) (blendChan lp.a cp.g lp.g)
      (blendChan lp.a cp.b lp.b) 255 = cp := by
  obtain ⟨hr, hg, hb, hac⟩ := hval
  cases cp with
  | mk cr cg cb ca =>
    simp only at hr hg hb hac
    subst hac
    rw [ha]
    unfold blendChan
    simp only [Nat.sub_zero, muldiv255_zero, Nat.add_zero]
    rw [muldiv255_full cr (by omega), muldiv255_full cg (by omega),
      muldiv255_full cb (by omega)]

/-- C4 (amended): a logo whose mode is `RGBA` is composited with its alpha
channel as the paste mask, so a fully transparent logo pixel leaves the
underlying canvas pixel unchanged; a logo in any other mode — including
`LA`, which also carries an alpha band — is pasted opaquely, overwriting the
canvas region. -/
theorem paste_alpha_spec (fresh : ℕ) (loadLogo : String → Option PImg)
    (resample : (ℕ → ℕ → Pixel) → ℕ × ℕ → ℕ × ℕ → ℕ → ℕ → Pixel)
    (qr : PImg) (p : String) (gap : ℕ) (logo : PImg) (lw lh : ℕ)
    (hload : loadLogo p = some logo)
    (hdims : resizedDims qr.width qr.height logo.width logo.height gap = some (lw, lh)) :
    overlay_logo_on_qr fresh loadLogo resample qr p gap
      = some (qr, pastedLogo
          (withBacking (imgCopy fresh qr) ((qr.width - lw) / 2) ((qr.height - lh) / 2)
            lw lh gap)
          ⟨logo.oid, lw, lh, logo.mode, resample logo.pix (logo.width, logo.height) (lw, lh)⟩
          ((qr.width - lw) / 2) ((qr.height - lh) / 2))
    ∧ (∀ canvas lg : PImg, ∀ x y px py : ℕ,
        x ≤ px → px < x + lg.width → y ≤ py → py < y + lg.height →
        px < canvas.width → py < canvas.height →
        pixValid (canvas.pix px py) →
        (lg.mode = PMode.RGBA → (lg.pix (px - x) (py - y)).a = 0 →
          (pastedLogo canvas lg x y).pix px py = canvas.pix px py)
        ∧ (¬ lg.mode = PMode.RGBA →
          (pastedLogo canvas lg x y).pix px py
            = ⟨(lg.pix (px - x) (py - y)).r, (lg.pix (px - x) (py - y)).g,
               (lg.pix (px - x) (py - y)).b, 255⟩)) := by
  refine ⟨overlay_eq fresh loadLogo resample qr p gap hload hdims, ?_⟩
  intro canvas lg x y px py h1 h2 h3 h4 h5 h6 hval
  constructor
  · intro hm ha
    unfold pastedLogo
    rw [if_pos hm]
    simp only [pasteMasked]
    rw [if_pos ⟨h1, h2, h3, h4, h5, h6⟩]
    exact blend_alpha_zero (canvas.pix px py) (lg.pix (px - x) (py - y)) hval ha
  · intro hm
    unfold pastedLogo
    rw [if_neg hm]
    simp only [pasteOpaque]
    rw [if_pos ⟨h1, h2, h3, h4, h5, h6⟩]

theorem paste_alpha_spec_witness :
    (pastedLogo (blackImg 40 40) rgbaLogo 16 16).pix 17 18 = (blackImg 40 40).pix 17 18 :=
  ((paste_alpha_spec 1 (fun _ => some rgbaLogo) keepResample (blackImg 40 40)
      ("logo.png") 0 rgbaLogo 8 8 rfl (by norm_num [resizedDims, logoBoxSize, pilThumbnail, rgbaLogo, blackImg])).2
    (blackImg 40 40) rgbaLogo 16 16 17 18 (by omega) (by decide) (by omega) (by decide)
    (by decide) (by decide) (by decide)).1 (by decide) (by decide)

/-- C4 counterexample: `laLogo` carries an alpha band (mode `LA`) and its
pixel at the paste position is fully transparent, yet the overlay overwrites
the black canvas with the logo's grey value, because `main.py` only treats
mode `RGBA` as having a mask. -/
theorem paste_alpha_cx :
    hasAlphaBand laLogo.mode = true
    ∧ (laLogo.pix 0 0).a = 0
    ∧ (((overlay_logo_on_qr 1 (fun _ => some laLogo) keepResample (blackImg 40 40)
        ("logo.png") 0).map Prod.snd).getD (blackImg 1 1)).pix 16 16 = ⟨7, 7, 7, 255⟩
    ∧ (blackImg 40 40).pix 16 16 = blackPx
    ∧ (⟨7, 7, 7, 255⟩ : Pixel) ≠ blackPx := by
  have h := overlay_eq 1 (fun _ => some laLogo) keepResample (blackImg 40 40)
    ("logo.png") 0 rfl resizedDims_40_40_8_8_0
  refine ⟨by decide, by decide, ?_, by decide, by decide⟩
  rw [h]
  simp only [Option.map_some', Option.getD_some]
  unfold pastedLogo
  rw [if_neg (by decide)]
  simp only [pasteOpaque]
  rw [if_pos (by decide)]
  decide

theorem resizedDims_100_100_8_8_0 : resizedDims 100 100 8 8 0 = some (8, 8) := by
  norm_num [resizedDims, logoBoxSize, pilThumbnail]

theorem resizedDims_100_100_8_8_9 : resizedDims 100 100 8 8 9 = some (7, 7) := by
  norm_num [resizedDims, logoBoxSize, pilThumbnail, roundAspect, thumbCheck]
  decide

theorem resizedDims_100_100_8_8_13 : resizedDims 100 100 8 8 13 = none := by
  norm_num [resizedDims, logoBoxSize, pilThumbnail, thumbCheck]

theorem resizedDims_50_50_8_8_0 : resizedDims 50 50 8 8 0 = some (8, 8) := by
  norm_num [resizedDims, logoBoxSize, pilThumbnail]

/-- C5 (amended): with the canvas fixed, increasing `logo_gap` never
increases the resized logo's bounding dimension (it decreases down to the
floor); but the overlay does not succeed for every `logo_gap ≥ 0`: the
resize succeeds exactly while `min(width, height) // 4 - 2 * logo_gap`
stays positive, and raises once that bound reaches zero or below. -/
theorem overlay_gap_monotonic (qw qh lw lh : ℕ) (hw : 1 ≤ lw) (hh : 1 ≤ lh) :
    (∀ g₁ g₂ a₁ b₁ a₂ b₂, g₁ ≤ g₂ →
      resizedDims qw qh lw lh g₁ = some (a₁, b₁) →
      resizedDims qw qh lw lh g₂ = some (a₂, b₂) →
      max a₂ b₂ ≤ max a₁ b₁)
    ∧ (∀ g, logoBoxSize qw qh g ≤ 0 → resizedDims qw qh lw lh g = none)
    ∧ (∀ g, 1 ≤ logoBoxSize qw qh g → (resizedDims qw qh lw lh g).isSome = true) := by
  refine ⟨?_, ?_, ?_⟩
  · intro g₁ g₂ a₁ b₁ a₂ b₂ hg h₁ h₂
    obtain ⟨hb₁, _, _, _, _, _, hm₁⟩ := pilThumbnail_facts hw hh h₁
    obtain ⟨hb₂, _, _, _, _, _, hm₂⟩ := pilThumbnail_facts hw hh h₂
    have hbb := logoBoxSize_anti qw qh hg
    omega
  · intro g hb
    exact pilThumbnail_none hw hb
  · intro g hb
    exact pilThumbnail_isSome hb

theorem overlay_gap_monotonic_witness :
    resizedDims 100 100 8 8 0 = some (8, 8)
    ∧ resizedDims 100 100 8 8 9 = some (7, 7)
    ∧ max 7 7 ≤ max 8 8 :=
  ⟨resizedDims_100_100_8_8_0, resizedDims_100_100_8_8_9,
   (overlay_gap_monotonic 100 100 8 8 (by omega) (by omega)).1 0 9 8 8 7 7 (by omega)
     resizedDims_100_100_8_8_0 resizedDims_100_100_8_8_9⟩

/-- C5 counterexample: on a 100x100 canvas with an 8x8 logo and
`logo_gap = 13`, the bound is `25 - 26 = -1`, the resize raises, and the
overlay fails — so the overlay does not succeed for every `logo_gap ≥ 0`. -/
theorem overlay_gap_failure_cx :
    overlay_logo_on_qr 1 (fun _ => some rgbLogo) keepResample (blackImg 100 100)
      ("logo.png") 13 = none :=
  overlay_none_of_dims_none 1 (fun _ => some rgbLogo) keepResample (blackImg 100 100)
    ("logo.png") 13 rfl resizedDims_100_100_8_8_13

/-- C6: `overlay_logo_on_qr` copies the canvas (main.py line 70) before
drawing: the input image object is returned exactly as passed (in
particular pixel-for-pixel unchanged), and the composited result is the
copy, carrying the fresh object identity, distinct from the input's. -/
theorem overlay_preserves_input (fresh : ℕ) (loadLogo : String → Option PImg)
    (resample : (ℕ → ℕ → Pixel) → ℕ × ℕ → ℕ × ℕ → ℕ → ℕ → Pixel)
    (qr : PImg) (p : String) (gap : ℕ) (av rv : PImg)
    (h : overlay_logo_on_qr fresh loadLogo resample qr p gap = some (av, rv)) :
    av = qr ∧ (∀ px py : ℕ, av.pix px py = qr.pix px py)
    ∧ rv.oid = fresh ∧ (¬ fresh = qr.oid → ¬ rv.oid = qr.oid) := by
  cases hload : loadLogo p with
  | none =>
    unfold overlay_logo_on_qr at h
    simp only [hload] at h
    exact Option.noConfusion h
  | some logo =>
    cases hdims : resizedDims qr.width qr.height logo.width logo.height gap with
    | none =>
      rw [overlay_none_of_dims_none fresh loadLogo resample qr p gap hload hdims] at h
      exact Option.noConfusion h
    | some d =>
      obtain ⟨lw, lh⟩ := d
      rw [overlay_eq fresh loadLogo resample qr p gap hload hdims] at h
      rw [Option.some_inj, Prod.mk.injEq] at h
      obtain ⟨rfl, rfl⟩ := h
      refine ⟨rfl, fun _ _ => rfl, ?_, ?_⟩
      · rw [pastedLogo_oid, withBacking_oid]
        rfl
      · intro hne
        rw [pastedLogo_oid, withBacking_oid]
        exact hne

theorem overlay_preserves_input_witness :
    ¬ (pastedLogo
        (withBacking (imgCopy 9 (blackImg 50 50)) (((blackImg 50 50).width - 8) / 2)
          (((blackImg 50 50).height - 8) / 2) 8 8 0)
        ⟨rgbLogo.oid, 8, 8, rgbLogo.mode,
         keepResample rgbLogo.pix (rgbLogo.width, rgbLogo.height) (8, 8)⟩
        (((blackImg 50 50).width - 8) / 2) (((blackImg 50 50).height - 8) / 2)).oid
      = (blackImg 50 50).oid :=
  (overlay_preserves_input 9 (fun _ => some rgbLogo) keepResample (blackImg 50 50)
    ("l.png") 0 _ _
    (overlay_eq 9 (fun _ => some rgbLogo) keepResample (blackImg 50 50) ("l.png") 0 rfl
      resizedDims_50_50_8_8_0)).2.2.2 (by decide)

theorem overlay_none_of_load_none (fresh : ℕ) (loadLogo : String → Option PImg)
    (resample : (ℕ → ℕ → Pixel) → ℕ × ℕ → ℕ × ℕ → ℕ → ℕ → Pixel)
    (qr : PImg) (p : String) (gap : ℕ) (hload : loadLogo p = none) :
    overlay_logo_on_qr fresh loadLogo resample qr p gap = none := by
  unfold overlay_logo_on_qr
  simp only [hload]

theorem logoStep_events (fx : Effects) (img : PImg) (lg : Option String) (gap : ℕ)
    (fe : PImg × List Ev) (h : logoStep fx img lg gap = some fe) :
    fe.2 = [] ∨ ∃ i, fe.2 = [Ev.overlaid i] := by
  cases lg with
  | none =>
    simp only [logoStep, Option.some_inj] at h
    subst h
    exact Or.inl rfl
  | some p =>
    simp only [logoStep] at h
    split_ifs at h with hp
    · rw [Option.some_inj] at h
      subst h
      exact Or.inl rfl
    · cases hov : overlay_logo_on_qr fx.fresh fx.loadLogo fx.resample img p gap with
      | none =>
        rw [hov] at h
        exact Option.noConfusion h
      | some q =>
        rw [hov, Option.some_inj] at h
        subst h
        exact Or.inr ⟨q.2, rfl⟩

theorem writtenFiles_append (l₁ l₂ : List Ev) :
    writtenFiles (l₁ ++ l₂) = writtenFiles l₁ ++ writtenFiles l₂ := by
  induction l₁ with
  | nil => rfl
  | cons e rest ih => cases e <;> simp [writtenFiles, ih]

theorem buildColorMask_fields (g : String) (c : ℤ × ℤ × ℤ) :
    (buildColorMask g c).back_color = (255, 255, 255)
    ∧ (buildColorMask g c).color0 = (0, 0, 0)
    ∧ (buildColorMask g c).color1 = c := by
  unfold buildColorMask
  split_ifs <;> exact ⟨rfl, rfl, rfl⟩

/-- C7 (amended): any style token outside the six known ones falls back to
the Rounded drawer with the qrcode library's own default radius ratio 1
(not the 0.5 used for the recognised `"rounded"` token); any gradient-type
token outside the four known ones falls back to the Radial mask; both
substitutions are functions of the token alone, and rendering proceeds
(the rendered event still occurs whenever encoding succeeded). -/
theorem style_fallback_spec :
    (∀ s, ¬ s ∈ [("circle"), ("gapped"), ("horizontal"), ("rounded"), ("square"),
        ("vertical")] → styleDrawer s = ModuleDrawer.rounded 1)
    ∧ (∀ g c, ¬ g ∈ [("radial"), ("square"), ("horizontal"), ("vertical")] →
        (buildColorMask g c).family = GradFamily.radial)
    ∧ (∀ fx data lg gap out sty gt gc sz n, fx.encode data (qrCfg sz) = some n →
        Ev.rendered (styleDrawer sty) (buildColorMask gt (chooseGradientColor gc).1)
            (fx.render n (qrCfg sz) (styleDrawer sty)
              (buildColorMask gt (chooseGradientColor gc).1))
          ∈ (generate_qr_with_logo fx data lg gap out sty gt gc sz).trace) := by
  refine ⟨?_, ?_, ?_⟩
  · intro s hs
    simp only [List.mem_cons, List.not_mem_nil, or_false, not_or] at hs
    obtain ⟨h1, h2, h3, h4, h5, h6⟩ := hs
    have e1 : (s == ("circle")) = false := beq_eq_false_iff_ne.mpr h1
    have e2 : (s == ("gapped")) = false := beq_eq_false_iff_ne.mpr h2
    have e3 : (s == ("horizontal")) = false := beq_eq_false_iff_ne.mpr h3
    have e4 : (s == ("rounded")) = false := beq_eq_false_iff_ne.mpr h4
    have e5 : (s == ("square")) = false := beq_eq_false_iff_ne.mpr h5
    have e6 : (s == ("vertical")) = false := beq_eq_false_iff_ne.mpr h6
    simp [styleDrawer, style_map, List.lookup, e1, e2, e3, e4, e5, e6]
  · intro g c hg
    simp only [List.mem_cons, List.not_mem_nil, or_false, not_or] at hg
    obtain ⟨h1, h2, h3, h4⟩ := hg
    have f1 : (g == ("radial")) = false := beq_eq_false_iff_ne.mpr h1
    have f2 : (g == ("square")) = false := beq_eq_false_iff_ne.mpr h2
    have f3 : (g == ("horizontal")) = false := beq_eq_false_iff_ne.mpr h3
    have f4 : (g == ("vertical")) = false := beq_eq_false_iff_ne.mpr h4
    simp [buildColorMask, gradient_map, List.lookup, f1, f2, f3, f4, h1, h2, h3, h4]
  · intro fx data lg gap out sty gt gc sz n henc
    cases hstep : logoStep fx
        (fx.render n (qrCfg sz) (styleDrawer sty)
          (buildColorMask gt (chooseGradientColor gc).1)) lg gap with
    | none =>
      simp only [generate_qr_with_logo, henc, hstep]
      exact List.mem_cons_of_mem _ (List.mem_cons_self _ _)
    | some fe =>
      simp only [generate_qr_with_logo, henc, hstep]
      split_ifs with hsave
      · exact List.mem_append_left _ (List.mem_append_left _
          (List.mem_cons_of_mem _ (List.mem_cons_self _ _)))
      · exact List.mem_append_left _ (List.mem_append_left _
          (List.mem_cons_of_mem _ (List.mem_cons_self _ _)))

theorem style_fallback_spec_witness :
    styleDrawer ("plain") = ModuleDrawer.rounded 1 :=
  style_fallback_spec.1 ("plain") (by decide)

/-- C7 counterexample: for the unknown token `"fancy"` the substituted
drawer is `RoundedModuleDrawer()` whose library-default radius ratio is 1,
not the 0.5 the claim states. -/
theorem style_fallback_cx :
    styleDrawer ("fancy") = ModuleDrawer.rounded 1
    ∧ ¬ styleDrawer ("fancy") = ModuleDrawer.rounded (1 / 2) := by
  have h1 : styleDrawer ("fancy") = ModuleDrawer.rounded 1 := by decide
  refine ⟨h1, ?_⟩
  rw [h1]
  simp only [ModuleDrawer.rounded.injEq]
  norm_num

theorem generate_err_written (fx : Effects) (data : String) (lg : Option String)
    (gap : ℕ) (out sty gt gc sz : String) (e : String)
    (he : (generate_qr_with_logo fx data lg gap out sty gt gc sz).err = some e) :
    writtenFiles (generate_qr_with_logo fx data lg gap out sty gt gc sz).trace = [] := by
  cases henc : fx.encode data (qrCfg sz) with
  | none =>
    simp only [generate_qr_with_logo, henc]
    rfl
  | some n =>
    cases hstep : logoStep fx (fx.render n (qrCfg sz) (styleDrawer sty)
        (buildColorMask gt (chooseGradientColor gc).1)) lg gap with
    | none =>
      simp only [generate_qr_with_logo, henc, hstep]
      simp [writtenFiles]
    | some fe =>
      simp only [generate_qr_with_logo, henc, hstep] at he ⊢
      split_ifs at he ⊢ with hsave
      rcases logoStep_events fx _ lg gap fe hstep with hfe | ⟨i, hfe⟩ <;>
        rw [writtenFiles_append, writtenFiles_append, hfe] <;> simp [writtenFiles]

theorem generate_load_fail (fx : Effects) (data : String) (gap : ℕ)
    (out sty gt gc sz p : String) (hp : ¬ p = ("")) (hload : fx.loadLogo p = none) :
    (generate_qr_with_logo fx data (some p) gap out sty gt gc sz).err.isSome = true
    ∧ ∀ q i, ¬ Ev.writeTried q i
        ∈ (generate_qr_with_logo fx data (some p) gap out sty gt gc sz).trace := by
  cases henc : fx.encode data (qrCfg sz) with
  | none =>
    simp only [generate_qr_with_logo, henc]
    exact ⟨rfl, fun q i hmem => List.not_mem_nil _ hmem⟩
  | some n =>
    have hstep : logoStep fx (fx.render n (qrCfg sz) (styleDrawer sty)
        (buildColorMask gt (chooseGradientColor gc).1)) (some p) gap = none := by
      simp only [logoStep, if_neg hp,
        overlay_none_of_load_none fx.fresh fx.loadLogo fx.resample _ p gap hload]
    simp only [generate_qr_with_logo, henc, hstep]
    refine ⟨rfl, ?_⟩
    intro q i hmem
    simp only [List.mem_cons, List.not_mem_nil, or_false] at hmem
    rcases hmem with h | h <;> exact Ev.noConfusion h

/-- C8 (amended): `main` exits 0 on success and 1 on any caught failure,
but the failure message is printed on standard output (main.py line 237 is
a bare `print`), not the error stream, and `main.py` writes nothing to the
error stream; no file is recorded as written on a failed run, and when the
logo cannot be loaded the render aborts before any write is attempted. -/
theorem main_exit_spec (fx : Effects) (data : String) (lg : Option String) (gap : ℕ)
    (out sty gt gc sz : String) :
    ((generate_qr_with_logo fx data lg gap out sty gt gc sz).err = none →
      (main_model fx data lg gap out sty gt gc sz).exitCode = 0)
    ∧ (∀ e, (generate_qr_with_logo fx data lg gap out sty gt gc sz).err = some e →
        (main_model fx data lg gap out sty gt gc sz).exitCode = 1
        ∧ (("Error generating QR code: ") ++ e)
            ∈ (main_model fx data lg gap out sty gt gc sz).stdout
        ∧ (main_model fx data lg gap out sty gt gc sz).stderr = []
        ∧ (main_model fx data lg gap out sty gt gc sz).written = [])
    ∧ (∀ p, lg = some p → ¬ p = ("") → fx.loadLogo p = none →
        (generate_qr_with_logo fx data lg gap out sty gt gc sz).err.isSome = true
        ∧ ∀ q i, ¬ Ev.writeTried q i
            ∈ (generate_qr_with_logo fx data lg gap out sty gt gc sz).trace) := by
  refine ⟨?_, ?_, ?_⟩
  · intro he
    simp only [main_model, he]
  · intro e he
    simp only [main_model, he]
    refine ⟨by trivial, ?_, by trivial, ?_⟩
    · exact List.mem_append_right _ (List.mem_cons_self _ _)
    · exact generate_err_written fx data lg gap out sty gt gc sz e he
  · intro p hlg hp hload
    subst hlg
    exact generate_load_fail fx data gap out sty gt gc sz p hp hload

theorem main_exit_spec_witness :
    (generate_qr_with_logo failLoadFx ("HI") (some ("logo.png")) 0 ("o.png") ("rounded")
      ("radial") ("#000000") ("normal")).err.isSome = true :=
  ((main_exit_spec failLoadFx ("HI") (some ("logo.png")) 0 ("o.png") ("rounded")
    ("radial") ("#000000") ("normal")).2.2 ("logo.png") rfl (by decide) rfl).1

/-- C8 counterexample: a run whose logo cannot be loaded exits with code 1,
yet the error stream is empty — the message went to standard output — so
the claim that the message is printed on the error stream is false. -/
theorem main_stderr_cx :
    (main_model failLoadFx ("HELLO") (some ("logo.png")) 0 ("out.png") ("rounded")
      ("radial") ("#000000") ("normal")).exitCode = 1
    ∧ (main_model failLoadFx ("HELLO") (some ("logo.png")) 0 ("out.png") ("rounded")
      ("radial") ("#000000") ("normal")).stderr = [] := by
  constructor <;> rfl

/-- C9: when a logo is configured, the overlay runs exactly once, on the
already gradient-coloured raster, and its output is what gets written; with
no logo the overlay step is skipped and the raster itself is written. -/
theorem gradient_then_logo (fx : Effects) (data : String) (gap : ℕ)
    (out sty gt gc sz : String) (n : ℕ)
    (henc : fx.encode data (qrCfg sz) = some n) :
    (∀ p pr, ¬ p = ("") →
      overlay_logo_on_qr fx.fresh fx.loadLogo fx.resample
          (fx.render n (qrCfg sz) (styleDrawer sty)
            (buildColorMask gt (chooseGradientColor gc).1)) p gap = some pr →
      fx.saveOk pr.2 out = true →
      (generate_qr_with_logo fx data (some p) gap out sty gt gc sz).trace
        = [Ev.encoded (qrCfg sz),
           Ev.rendered (styleDrawer sty) (buildColorMask gt (chooseGradientColor gc).1)
             (fx.render n (qrCfg sz) (styleDrawer sty)
               (buildColorMask gt (chooseGradientColor gc).1)),
           Ev.overlaid pr.2, Ev.writeTried out pr.2, Ev.written out pr.2]
        ∧ (generate_qr_with_logo fx data (some p) gap out sty gt gc sz).err = none)
    ∧ (fx.saveOk (fx.render n (qrCfg sz) (styleDrawer sty)
          (buildColorMask gt (chooseGradientColor gc).1)) out = true →
      (generate_qr_with_logo fx data none gap out sty gt gc sz).trace
        = [Ev.encoded (qrCfg sz),
           Ev.rendered (styleDrawer sty) (buildColorMask gt (chooseGradientColor gc).1)
             (fx.render n (qrCfg sz) (styleDrawer sty)
               (buildColorMask gt (chooseGradientColor gc).1)),
           Ev.writeTried out (fx.render n (qrCfg sz) (styleDrawer sty)
             (buildColorMask gt (chooseGradientColor gc).1)),
           Ev.written out (fx.render n (qrCfg sz) (styleDrawer sty)
             (buildColorMask gt (chooseGradientColor gc).1))]
        ∧ (generate_qr_with_logo fx data none gap out sty gt gc sz).err = none) := by
  constructor
  · intro p pr hp hov hsave
    have hstep : logoStep fx (fx.render n (qrCfg sz) (styleDrawer sty)
        (buildColorMask gt (chooseGradientColor gc).1)) (some p) gap
        = some (pr.2, [Ev.overlaid pr.2]) := by
      simp only [logoStep, if_neg hp, hov]
    simp only [generate_qr_with_logo, henc, hstep]
    rw [if_pos hsave]
    exact ⟨rfl, rfl⟩
  · intro hsave
    have hstep : logoStep fx (fx.render n (qrCfg sz) (styleDrawer sty)
        (buildColorMask gt (chooseGradientColor gc).1)) none gap
        = some (fx.render n (qrCfg sz) (styleDrawer sty)
            (buildColorMask gt (chooseGradientColor gc).1), []) := rfl
    simp only [generate_qr_with_logo, henc, hstep]
    rw [if_pos hsave]
    exact ⟨rfl, rfl⟩

theorem gradient_then_logo_witness :
    (generate_qr_with_logo okFx ("HI") none 2 ("o.png") ("rounded") ("radial")
      ("#000000") ("normal")).err = none :=
  ((gradient_then_logo okFx ("HI") 2 ("o.png") ("rounded") ("radial") ("#000000")
    ("normal") 21 rfl).2 rfl).2

/-- C10: every invocation — with or without a logo — encodes with
error-correction level H and a 4-module border, and every rendered colour
mask has background `(255,255,255)`, first gradient endpoint `(0,0,0)`, and
second endpoint exactly the (fallback-resolved) `gradient_color`; the
background and first endpoint never depend on the colour argument. -/
theorem render_invariants (fx : Effects) (data : String) (lg : Option String) (gap : ℕ)
    (out sty gt gc sz : String) :
    (∀ e, e ∈ (generate_qr_with_logo fx data lg gap out sty gt gc sz).trace →
      renderInvariant gc e)
    ∧ (∀ g c, (buildColorMask g c).back_color = (255, 255, 255)
        ∧ (buildColorMask g c).color0 = (0, 0, 0)
        ∧ (buildColorMask g c).color1 = c) := by
  refine ⟨?_, buildColorMask_fields⟩
  intro e he
  cases henc : fx.encode data (qrCfg sz) with
  | none =>
    simp only [generate_qr_with_logo, henc] at he
    exact absurd he (List.not_mem_nil e)
  | some n =>
    cases hstep : logoStep fx (fx.render n (qrCfg sz) (styleDrawer sty)
        (buildColorMask gt (chooseGradientColor gc).1)) lg gap with
    | none =>
      simp only [generate_qr_with_logo, henc, hstep, List.mem_cons,
        List.not_mem_nil, or_false] at he
      rcases he with rfl | rfl
      · exact ⟨rfl, rfl⟩
      · exact buildColorMask_fields gt (chooseGradientColor gc).1
    | some fe =>
      simp only [generate_qr_with_logo, henc, hstep] at he
      split_ifs at he with hsave <;>
        simp only [List.mem_append, List.mem_cons, List.not_mem_nil, or_false] at he
      · rcases he with ((rfl | rfl) | hfe) | (rfl | rfl)
        · exact ⟨rfl, rfl⟩
        · exact buildColorMask_fields gt (chooseGradientColor gc).1
        · rcases logoStep_events fx _ lg gap fe hstep with h2 | ⟨i, h2⟩ <;> rw [h2] at hfe
          · exact absurd hfe (List.not_mem_nil e)
          · simp only [List.mem_cons, List.not_mem_nil, or_false] at hfe
            subst hfe
            trivial
        · trivial
        · trivial
      · rcases he with ((rfl | rfl) | hfe) | rfl
        · exact ⟨rfl, rfl⟩
        · exact buildColorMask_fields gt (chooseGradientColor gc).1
        · rcases logoStep_events fx _ lg gap fe hstep with h2 | ⟨i, h2⟩ <;> rw [h2] at hfe
          · exact absurd hfe (List.not_mem_nil e)
          · simp only [List.mem_cons, List.not_mem_nil, or_false] at hfe
            subst hfe
            trivial
        · trivial

theorem render_invariants_witness :
    renderInvariant ("#000000") (Ev.encoded (qrCfg ("normal"))) :=
  (render_invariants okFx ("HI") none 0 ("o.png") ("rounded") ("radial") ("#000000")
    ("normal")).1 (Ev.encoded (qrCfg ("normal"))) (List.mem_cons_self _ _)

end MyPyQRCode
